import Mathlib

/-
Verification of the variable-scoping engine of the GN build-configuration
interpreter (tools/gn).  The repository sources contain the unit tests of the
engine (scope_unittest.cc) but not scope.cc itself, so the engine is modelled
from the design document: binding stores, scope chains with read-only
boundaries, the merger, the closure builder and the usage tracker.
Scopes live in an arena (a list of scope records); the parent link is an index
into the arena, strictly smaller than the index of the child, which makes the
parent relation acyclic as the design requires.
-/

set_option linter.unusedVariables false
set_option linter.unusedSectionVars false

namespace GnScope

/-- Modelled from the spec: scope.cc is missing from the sources.  A scope is
tagged Mutable or ReadOnlyBoundary; the read-only and mutable distinction is an
explicit two-valued scope kind checked inside GetMutableValue. -/
inductive ScopeKind where
  | mutableScope
  | readOnlyBoundary
deriving DecidableEq, Repr

/-- Modelled from the spec: scope.cc is missing from the sources.  A binding is
a (value, origin, used-flag) record; the name is the key of the store. -/
structure Binding (V O : Type) where
  value : V
  origin : O
  used : Bool
deriving DecidableEq, Repr

/-- Modelled from the spec: scope.cc is missing from the sources.  A scope
holds a binding store (name-keyed association list), an optional non-owning
parent reference (an index into the arena) and its kind. -/
structure ScopeData (V O : Type) where
  bindings : List (String × Binding V O)
  parent : Option Nat
  kind : ScopeKind
deriving DecidableEq, Repr

/-- The externally-owned arena of scopes; a scope reference is an index. -/
abbrev Arena (V O : Type) := List (ScopeData V O)

variable {V O : Type}

/-- Find the binding for a name in one binding store (first match). -/
def lookupLocal : List (String × Binding V O) → String → Option (Binding V O)
  | [], _ => none
  | (n, b) :: rest, name => if n = name then some b else lookupLocal rest name

/-- Insert or overwrite the binding for a name in one binding store. -/
def setLocal : List (String × Binding V O) → String → Binding V O →
    List (String × Binding V O)
  | [], name, b => [(name, b)]
  | (n, b0) :: rest, name, b =>
    if n = name then (n, b) :: rest else (n, b0) :: setLocal rest name b

/-- Set the used-flag of the binding for a name (first match) in one store. -/
def markLocalUsed : List (String × Binding V O) → String →
    List (String × Binding V O)
  | [], _ => []
  | (n, b) :: rest, name =>
    if n = name then (n, { b with used := true }) :: rest
    else (n, b) :: markLocalUsed rest name

/-- Reset every used-flag of a store to false. -/
def resetUsedStore (bs : List (String × Binding V O)) :
    List (String × Binding V O) :=
  bs.map (fun nb => (nb.1, { nb.2 with used := false }))

/-- Mark the binding for a name used inside scope i of the arena. -/
def markUsedAt (arena : Arena V O) (i : Nat) (name : String) : Arena V O :=
  match arena[i]? with
  | none => arena
  | some sd => arena.set i { sd with bindings := markLocalUsed sd.bindings name }

/-- Modelled from the spec: scope.cc is missing from the sources.
GetValue searches the invoking scope and then each ancestor in turn, nearest
first; on a match, if markUsed is true the used-flag of the found binding is
set in the scope that holds it.  The fuel bounds the ancestor walk; parent
indices strictly decrease, so fuel i+1 always suffices. -/
def getValueAux (arena : Arena V O) : Nat → Nat → String → Bool →
    Option (V × Arena V O)
  | 0, _, _, _ => none
  | fuel + 1, i, name, markUsed =>
    match arena[i]? with
    | none => none
    | some sd =>
      match lookupLocal sd.bindings name with
      | some b =>
        some (b.value, if markUsed then markUsedAt arena i name else arena)
      | none =>
        match sd.parent with
        | none => none
        | some p => getValueAux arena fuel p name markUsed

/-- Modelled from the spec: scope.cc is missing from the sources.  GetValue of
scope i, returning the found value and the (possibly used-marked) arena. -/
def getValue (arena : Arena V O) (i : Nat) (name : String) (markUsed : Bool) :
    Option (V × Arena V O) :=
  getValueAux arena (i + 1) i name markUsed

/-- The index of the scope owning the first match of the chain search. -/
def resolveAux (arena : Arena V O) : Nat → Nat → String → Option Nat
  | 0, _, _ => none
  | fuel + 1, i, name =>
    match arena[i]? with
    | none => none
    | some sd =>
      match lookupLocal sd.bindings name with
      | some _ => some i
      | none =>
        match sd.parent with
        | none => none
        | some p => resolveAux arena fuel p name

/-- The scope in the chain of scope i that owns the binding for a name. -/
def resolveScope (arena : Arena V O) (i : Nat) (name : String) : Option Nat :=
  resolveAux arena (i + 1) i name

/-- Modelled from the spec: scope.cc is missing from the sources.  The result
of GetMutableValue distinguishes a real absence from ImmutableAccessDenied,
the capability signal returned when the only reachable binding lives across a
read-only boundary. -/
inductive MutResult (V O : Type) where
  | found (value : V) (arena : Arena V O)
  | notFound
  | denied
deriving DecidableEq, Repr

/-- Modelled from the spec: scope.cc is missing from the sources.
GetMutableValue runs the same nearest-first search as GetValue, but once the
walk has stepped into a ReadOnlyBoundary scope (or past one), a match is
answered with the denied signal instead of the value. -/
def getMutableValueAux (arena : Arena V O) : Nat → Nat → String → Bool → Bool →
    MutResult V O
  | 0, _, _, _, _ => MutResult.notFound
  | fuel + 1, i, name, markUsed, crossed =>
    match arena[i]? with
    | none => MutResult.notFound
    | some sd =>
      match lookupLocal sd.bindings name with
      | some b =>
        if crossed then MutResult.denied
        else
          MutResult.found b.value
            (if markUsed then markUsedAt arena i name else arena)
      | none =>
        match sd.parent with
        | none => MutResult.notFound
        | some p =>
          match arena[p]? with
          | none => MutResult.notFound
          | some psd =>
            getMutableValueAux arena fuel p name markUsed
              (crossed || psd.kind = ScopeKind.readOnlyBoundary)

/-- Modelled from the spec: scope.cc is missing from the sources.
GetMutableValue of scope i; the invoking scope itself is never denied. -/
def getMutableValue (arena : Arena V O) (i : Nat) (name : String)
    (markUsed : Bool) : MutResult V O :=
  getMutableValueAux arena (i + 1) i name markUsed false

/-- Modelled from the spec: scope.cc is missing from the sources.  SetValue
inserts or overwrites a binding in the local store of scope i only, resetting
the used-flag and replacing the origin. -/
def setValue (arena : Arena V O) (i : Nat) (name : String) (v : V) (o : O) :
    Arena V O :=
  match arena[i]? with
  | none => arena
  | some sd =>
    arena.set i
      { sd with bindings := setLocal sd.bindings name ⟨v, o, false⟩ }

/-- Modelled from the spec: scope.cc is missing from the sources.  The failure
of the usage tracker names the offending binding and carries its origin. -/
structure UnusedVariableError (O : Type) where
  name : String
  origin : O
deriving DecidableEq, Repr

/-- The first binding of a store whose used-flag is false, with its origin. -/
def firstUnused : List (String × Binding V O) → Option (UnusedVariableError O)
  | [] => none
  | (n, b) :: rest => if b.used then firstUnused rest else some ⟨n, b.origin⟩

/-- Modelled from the spec: scope.cc is missing from the sources.
CheckForUnusedVars scans the local bindings of scope i only; it fails (some
error) when a local binding has used = false, deterministically reporting the
first one together with its origin. -/
def checkForUnusedVars (arena : Arena V O) (i : Nat) :
    Option (UnusedVariableError O) :=
  match arena[i]? with
  | none => none
  | some sd => firstUnused sd.bindings

/-- Modelled from the spec: scope.cc is missing from the sources.  A collision
error carries both origins and the caller-supplied description string. -/
structure CollisionError (O : Type) where
  targetOrigin : O
  sourceOrigin : O
  description : String
deriving DecidableEq, Repr

variable [DecidableEq V]

/-- Modelled from the spec: scope.cc is missing from the sources.  The merge
of the local bindings of a source store into a target store, processed source
binding by source binding: absent names are added keeping the source origin,
equal values are a no-op, differing values are a collision error unless
clobber is allowed, in which case the target binding is overwritten with the
source value and origin.  The operation is atomic: an error aborts the whole
merge and no partial store is produced. -/
def mergeLocal : List (String × Binding V O) → List (String × Binding V O) →
    Bool → String → Except (CollisionError O) (List (String × Binding V O))
  | target, [], _, _ => Except.ok target
  | target, (n, b) :: rest, clobber, desc =>
    match lookupLocal target n with
    | none => mergeLocal (setLocal target n b) rest clobber desc
    | some tb =>
      if tb.value = b.value then mergeLocal target rest clobber desc
      else if clobber then mergeLocal (setLocal target n b) rest clobber desc
      else Except.error ⟨tb.origin, b.origin, desc⟩

/-- Modelled from the spec: scope.cc is missing from the sources.
NonRecursiveMergeTo copies only the local bindings of the source scope into
the target scope, never following the parent chain of the source; blameOrigin
is carried for the interface but the collision error reports the origins of
the two colliding bindings. -/
def nonRecursiveMergeTo (source target : ScopeData V O) (clobberAllowed : Bool)
    (blameOrigin : O) (description : String) :
    Except (CollisionError O) (ScopeData V O) :=
  match mergeLocal target.bindings source.bindings clobberAllowed description with
  | Except.ok bs => Except.ok { target with bindings := bs }
  | Except.error e => Except.error e

/-- The run of local stores from scope i up to and excluding the first
ReadOnlyBoundary ancestor (nearest scope first); the walk starts at a scope
already known to be mutable. -/
def mutableRun (arena : Arena V O) : Nat → Nat →
    List (List (String × Binding V O))
  | 0, _ => []
  | fuel + 1, i =>
    match arena[i]? with
    | none => []
    | some sd =>
      match sd.parent with
      | none => [sd.bindings]
      | some p =>
        match arena[p]? with
        | none => [sd.bindings]
        | some psd =>
          if psd.kind = ScopeKind.readOnlyBoundary then [sd.bindings]
          else sd.bindings :: mutableRun arena fuel p

/-- The first ReadOnlyBoundary ancestor strictly above scope i, if any. -/
def roBoundary (arena : Arena V O) : Nat → Nat → Option Nat
  | 0, _ => none
  | fuel + 1, i =>
    match arena[i]? with
    | none => none
    | some sd =>
      match sd.parent with
      | none => none
      | some p =>
        match arena[p]? with
        | none => none
        | some psd =>
          if psd.kind = ScopeKind.readOnlyBoundary then some p
          else roBoundary arena fuel p

/-- Overlay one local store onto an accumulated closure store: every copied
binding starts with a fresh used-flag. -/
def overlayStore (acc : List (String × Binding V O))
    (bs : List (String × Binding V O)) : List (String × Binding V O) :=
  bs.foldl (fun a nb => setLocal a nb.1 { nb.2 with used := false }) acc

/-- Modelled from the spec: scope.cc is missing from the sources.  MakeClosure
flattens the run of mutable scopes from scope i up to the first read-only
boundary into one standalone scope, applying the collected stores from the
farthest to the nearest so that nearer scopes win name collisions, and links
the new scope to the boundary ancestor by reference (its arena index).  When
scope i is itself a read-only boundary the run is empty and the closure is a
parentless flat copy of its own local store. -/
def makeClosure (arena : Arena V O) (i : Nat) : Option (ScopeData V O) :=
  match arena[i]? with
  | none => none
  | some sd =>
    if sd.kind = ScopeKind.readOnlyBoundary then
      some ⟨resetUsedStore sd.bindings, none, ScopeKind.mutableScope⟩
    else
      some ⟨((mutableRun arena (i + 1) i).reverse).foldl overlayStore [],
            roBoundary arena (i + 1) i, ScopeKind.mutableScope⟩

/-- Nearest-first search of a run of local stores. -/
def runLookup : List (List (String × Binding V O)) → String →
    Option (Binding V O)
  | [], _ => none
  | bs :: rest, name =>
    match lookupLocal bs name with
    | some b => some b
    | none => runLookup rest name

/-- A binding store is well formed when its names are unique. -/
def StoreOk (bs : List (String × Binding V O)) : Prop :=
  (bs.map Prod.fst).Nodup

/-- Boolean check that every parent index is strictly below the index of the
child, the list being indexed from k upward. -/
def parentsOkAux : List (ScopeData V O) → Nat → Bool
  | [], _ => true
  | sd :: rest, k =>
    sd.parent.all (fun p => decide (p < k)) && parentsOkAux rest (k + 1)

/-- An arena is well formed when every parent index is strictly below the
index of the child (the parent relation is a strict tree and lookups
terminate) and every store has unique names. -/
def ArenaOk (arena : Arena V O) : Prop :=
  parentsOkAux arena 0 = true ∧ ∀ sd ∈ arena, StoreOk sd.bindings

instance : DecidablePred (StoreOk (V := V) (O := O)) := by
  intro bs
  unfold StoreOk
  infer_instance

instance (arena : Arena V O) : Decidable (ArenaOk arena) := by
  unfold ArenaOk
  infer_instance

theorem parentsOkAux_lt {arena : Arena V O} {k : Nat}
    (h : parentsOkAux arena k = true) :
    ∀ i (sd : ScopeData V O), arena[i]? = some sd →
      ∀ p, sd.parent = some p → p < k + i := by
  induction arena generalizing k with
  | nil => intro i sd hsd; simp at hsd
  | cons hd tl ih =>
    intro i sd hsd p hp
    simp only [parentsOkAux, Bool.and_eq_true] at h
    cases i with
    | zero =>
      simp only [List.getElem?_cons_zero, Option.some.injEq] at hsd
      subst hsd
      have := h.1
      rw [hp] at this
      simp only [Option.all_some, decide_eq_true_eq] at this
      simpa using this
    | succ j =>
      simp only [List.getElem?_cons_succ] at hsd
      have := ih h.2 j sd hsd p hp
      omega

theorem arenaOk_parent_lt {arena : Arena V O} (h : ArenaOk arena) :
    ∀ i (sd : ScopeData V O), arena[i]? = some sd →
      ∀ p, sd.parent = some p → p < i := by
  intro i sd hsd p hp
  have := parentsOkAux_lt h.1 i sd hsd p hp
  simpa using this

/-! ### Lemmas about a single binding store -/

theorem lookupLocal_setLocal_self (bs : List (String × Binding V O))
    (name : String) (b : Binding V O) :
    lookupLocal (setLocal bs name b) name = some b := by
  induction bs with
  | nil => simp [setLocal, lookupLocal]
  | cons hd tl ih =>
    obtain ⟨n, b0⟩ := hd
    by_cases hn : n = name
    · subst hn
      simp [setLocal, lookupLocal]
    · simp [setLocal, lookupLocal, hn, ih]

theorem lookupLocal_setLocal_ne (bs : List (String × Binding V O))
    {m name : String} (b : Binding V O) (h : m ≠ name) :
    lookupLocal (setLocal bs m b) name = lookupLocal bs name := by
  induction bs with
  | nil => simp [setLocal, lookupLocal, h]
  | cons hd tl ih =>
    obtain ⟨n, b0⟩ := hd
    by_cases hn : n = m
    · subst hn
      simp [setLocal, lookupLocal, h]
    · simp [setLocal, lookupLocal, hn, ih]

theorem mem_keys_of_lookupLocal {bs : List (String × Binding V O)}
    {name : String} {b : Binding V O} (h : lookupLocal bs name = some b) :
    name ∈ bs.map Prod.fst := by
  induction bs with
  | nil => simp [lookupLocal] at h
  | cons hd tl ih =>
    obtain ⟨n, b0⟩ := hd
    by_cases hn : n = name
    · subst hn; simp
    · simp only [lookupLocal, if_neg hn] at h
      simpa using Or.inr (ih h)

theorem lookupLocal_eq_none_of_not_mem {bs : List (String × Binding V O)}
    {name : String} (h : name ∉ bs.map Prod.fst) :
    lookupLocal bs name = none := by
  cases hl : lookupLocal bs name with
  | none => rfl
  | some b => exact absurd (mem_keys_of_lookupLocal hl) h

theorem lookupLocal_some_of_mem_keys {bs : List (String × Binding V O)}
    {name : String} (h : name ∈ bs.map Prod.fst) :
    ∃ b, lookupLocal bs name = some b := by
  induction bs with
  | nil => simp at h
  | cons hd tl ih =>
    obtain ⟨n, b0⟩ := hd
    by_cases hn : n = name
    · subst hn
      exact ⟨b0, by simp [lookupLocal]⟩
    · simp only [List.map_cons, List.mem_cons] at h
      rcases h with h | h
      · exact absurd h.symm hn
      · obtain ⟨b, hb⟩ := ih h
        exact ⟨b, by simpa [lookupLocal, hn] using hb⟩

theorem setLocal_append {bs : List (String × Binding V O)} {name : String}
    (b : Binding V O) (h : name ∉ bs.map Prod.fst) :
    setLocal bs name b = bs ++ [(name, b)] := by
  induction bs with
  | nil => simp [setLocal]
  | cons hd tl ih =>
    obtain ⟨n, b0⟩ := hd
    simp only [List.map_cons, List.mem_cons, not_or] at h
    have hn : n ≠ name := fun he => h.1 he.symm
    simp [setLocal, hn, ih h.2]

theorem mem_setLocal {bs : List (String × Binding V O)} {name : String}
    {b : Binding V O} {x : String × Binding V O}
    (hmem : x ∈ setLocal bs name b) : x = (name, b) ∨ x ∈ bs := by
  induction bs with
  | nil => simpa [setLocal] using hmem
  | cons hd tl ih =>
    obtain ⟨n, b0⟩ := hd
    have h := hmem
    by_cases hn : n = name
    · subst hn
      simp only [setLocal, if_true, eq_self_iff_true, List.mem_cons] at h
      rcases h with h | h
      · exact Or.inl h
      · exact Or.inr (List.mem_cons_of_mem _ h)
    · simp only [setLocal, if_neg hn, List.mem_cons] at h
      rcases h with h | h
      · exact Or.inr (h ▸ List.mem_cons_self _ _)
      · rcases ih h with h | h
        · exact Or.inl h
        · exact Or.inr (List.mem_cons_of_mem _ h)

theorem lookupLocal_resetUsedStore (bs : List (String × Binding V O))
    (name : String) :
    lookupLocal (resetUsedStore bs) name =
      (lookupLocal bs name).map (fun b => { b with used := false }) := by
  induction bs with
  | nil => simp [resetUsedStore, lookupLocal]
  | cons hd tl ih =>
    obtain ⟨n, b0⟩ := hd
    by_cases hn : n = name
    · subst hn; simp [resetUsedStore, lookupLocal]
    · simpa [resetUsedStore, lookupLocal, hn] using ih

theorem mem_resetUsedStore_used {bs : List (String × Binding V O)}
    {x : String × Binding V O} (h : x ∈ resetUsedStore bs) :
    x.2.used = false := by
  simp only [resetUsedStore, List.mem_map] at h
  obtain ⟨nb, _, rfl⟩ := h
  rfl

/-! ### Lemmas about the usage tracker -/

theorem firstUnused_eq_none_iff {bs : List (String × Binding V O)} :
    firstUnused bs = none ↔ ∀ nb ∈ bs, nb.2.used = true := by
  induction bs with
  | nil => simp [firstUnused]
  | cons hd tl ih =>
    obtain ⟨n, b⟩ := hd
    cases hb : b.used with
    | true => simp [firstUnused, hb, ih]
    | false => simp [firstUnused, hb]

theorem firstUnused_some_spec {bs : List (String × Binding V O)}
    {e : UnusedVariableError O} (h : firstUnused bs = some e) :
    ∃ nb ∈ bs, nb.2.used = false ∧ e.name = nb.1 ∧ e.origin = nb.2.origin := by
  induction bs with
  | nil => simp [firstUnused] at h
  | cons hd tl ih =>
    obtain ⟨n, b⟩ := hd
    cases hb : b.used with
    | true =>
      simp only [firstUnused, hb, if_true] at h
      obtain ⟨nb, hmem, hnb⟩ := ih h
      exact ⟨nb, List.mem_cons_of_mem _ hmem, hnb⟩
    | false =>
      simp only [firstUnused, hb, Bool.false_eq_true, if_false] at h
      cases h
      exact ⟨(n, b), List.mem_cons_self _ _, hb, rfl, rfl⟩

theorem firstUnused_isSome_iff {bs : List (String × Binding V O)} :
    (firstUnused bs).isSome = true ↔ ∃ nb ∈ bs, nb.2.used = false := by
  constructor
  · intro h
    cases he : firstUnused bs with
    | none => rw [he] at h; simp at h
    | some e =>
      obtain ⟨nb, hmem, hu, _⟩ := firstUnused_some_spec he
      exact ⟨nb, hmem, hu⟩
  · intro ⟨nb, hmem, hu⟩
    cases he : firstUnused bs with
    | some e => rfl
    | none =>
      have := firstUnused_eq_none_iff.mp he nb hmem
      rw [hu] at this
      exact absurd this (by simp)

theorem markLocalUsed_all_used {bs : List (String × Binding V O)}
    {name : String} (hnodup : (bs.map Prod.fst).Nodup)
    (hall : ∀ nb ∈ bs, nb.1 ≠ name → nb.2.used = true) :
    ∀ nb ∈ markLocalUsed bs name, nb.2.used = true := by
  induction bs with
  | nil => intro nb hnb; simp [markLocalUsed] at hnb
  | cons hd tl ih =>
    obtain ⟨n, b⟩ := hd
    simp only [List.map_cons, List.nodup_cons] at hnodup
    intro nb hnb
    by_cases hn : n = name
    · subst hn
      have hstep : markLocalUsed ((n, b) :: tl) n =
          (n, { b with used := true }) :: tl := by
        simp [markLocalUsed]
      rw [hstep] at hnb
      rcases List.mem_cons.mp hnb with hnb | hnb
      · rw [hnb]
      · refine hall nb (List.mem_cons_of_mem _ hnb) ?_
        intro he
        exact hnodup.1 (he ▸ List.mem_map_of_mem Prod.fst hnb)
    · have hstep : markLocalUsed ((n, b) :: tl) name =
          (n, b) :: markLocalUsed tl name := by
        simp [markLocalUsed, hn]
      rw [hstep] at hnb
      rcases List.mem_cons.mp hnb with hnb | hnb
      · subst hnb
        exact hall (n, b) (List.mem_cons_self _ _) hn
      · exact ih hnodup.2
          (fun x hx hne => hall x (List.mem_cons_of_mem _ hx) hne) nb hnb

/-! ### Lemmas about the closure overlay -/

theorem lookupLocal_overlayStore_of_none
    {bs : List (String × Binding V O)} {name : String}
    (h : lookupLocal bs name = none) :
    ∀ acc, lookupLocal (overlayStore acc bs) name = lookupLocal acc name := by
  induction bs with
  | nil => intro acc; rfl
  | cons hd tl ih =>
    obtain ⟨n, b⟩ := hd
    intro acc
    by_cases hn : n = name
    · subst hn; simp [lookupLocal] at h
    · simp only [lookupLocal, if_neg hn] at h
      have step : overlayStore acc ((n, b) :: tl) =
          overlayStore (setLocal acc n { b with used := false }) tl := rfl
      rw [step, ih h, lookupLocal_setLocal_ne _ _ hn]

theorem lookupLocal_overlayStore_of_some
    {bs : List (String × Binding V O)} {name : String} {b : Binding V O}
    (hnodup : (bs.map Prod.fst).Nodup) (h : lookupLocal bs name = some b) :
    ∀ acc, lookupLocal (overlayStore acc bs) name =
      some { b with used := false } := by
  induction bs with
  | nil => intro acc; simp [lookupLocal] at h
  | cons hd tl ih =>
    obtain ⟨n, b0⟩ := hd
    simp only [List.map_cons, List.nodup_cons] at hnodup
    intro acc
    have step : overlayStore acc ((n, b0) :: tl) =
        overlayStore (setLocal acc n { b0 with used := false }) tl := rfl
    by_cases hn : n = name
    · subst hn
      have hb0 : b0 = b := by simpa [lookupLocal] using h
      subst hb0
      have htl : lookupLocal tl n = none :=
        lookupLocal_eq_none_of_not_mem hnodup.1
      rw [step, lookupLocal_overlayStore_of_none htl,
        lookupLocal_setLocal_self]
    · simp only [lookupLocal, if_neg hn] at h
      rw [step, ih hnodup.2 h]

theorem overlayStore_used_false {bs acc : List (String × Binding V O)}
    (hacc : ∀ x ∈ acc, x.2.used = false) :
    ∀ x ∈ overlayStore acc bs, x.2.used = false := by
  induction bs generalizing acc with
  | nil => exact hacc
  | cons hd tl ih =>
    have step : overlayStore acc (hd :: tl) =
        overlayStore (setLocal acc hd.1 { hd.2 with used := false }) tl := rfl
    rw [step]
    refine ih ?_
    intro x hx
    rcases mem_setLocal hx with hx | hx
    · rw [hx]
    · exact hacc x hx

theorem foldl_overlay_used_false
    {run : List (List (String × Binding V O))}
    {acc : List (String × Binding V O)}
    (hacc : ∀ x ∈ acc, x.2.used = false) :
    ∀ x ∈ run.foldl overlayStore acc, x.2.used = false := by
  induction run generalizing acc with
  | nil => exact hacc
  | cons hd tl ih => exact ih (overlayStore_used_false hacc)

theorem lookupLocal_foldl_overlay
    {run : List (List (String × Binding V O))} (name : String)
    (hok : ∀ bs ∈ run, (bs.map Prod.fst).Nodup) :
    ∀ acc, lookupLocal (run.reverse.foldl overlayStore acc) name =
      match runLookup run name with
      | some b => some { b with used := false }
      | none => lookupLocal acc name := by
  induction run with
  | nil => intro acc; rfl
  | cons bs rest ih =>
    intro acc
    have hrev : (bs :: rest).reverse.foldl overlayStore acc =
        overlayStore (rest.reverse.foldl overlayStore acc) bs := by
      rw [List.reverse_cons, List.foldl_append]
      rfl
    rw [hrev]
    cases hl : lookupLocal bs name with
    | some b =>
      rw [lookupLocal_overlayStore_of_some (hok bs (List.mem_cons_self _ _)) hl]
      simp [runLookup, hl]
    | none =>
      rw [lookupLocal_overlayStore_of_none hl,
        ih (fun x hx => hok x (List.mem_cons_of_mem _ hx)) acc]
      simp [runLookup, hl]

/-! ### Lemmas about the chain walks -/

theorem getValueAux_none_of_get_none {arena : Arena V O} {i : Nat}
    (h : arena[i]? = none) :
    ∀ fuel name mu, getValueAux arena fuel i name mu = none := by
  intro fuel name mu
  cases fuel with
  | zero => rfl
  | succ fuel => simp [getValueAux, h]

theorem getValueAux_false_frame {arena : Arena V O} :
    ∀ (fuel i : Nat) (name : String) (v : V) (arena' : Arena V O),
      getValueAux arena fuel i name false = some (v, arena') →
      arena' = arena := by
  intro fuel
  induction fuel with
  | zero => intro i name v arena' h; simp [getValueAux] at h
  | succ fuel ih =>
    intro i name v arena' h
    cases hsd : arena[i]? with
    | none => simp [getValueAux, hsd] at h
    | some sd =>
      cases hl : lookupLocal sd.bindings name with
      | some b =>
        simp only [getValueAux, hsd, hl] at h
        simp only [Bool.false_eq_true, if_false, Option.some.injEq,
          Prod.mk.injEq] at h
        exact h.2.symm
      | none =>
        cases hp : sd.parent with
        | none => simp [getValueAux, hsd, hl, hp] at h
        | some p =>
          simp only [getValueAux, hsd, hl, hp] at h
          exact ih p name v arena' h

theorem getValueAux_true_resolve {arena : Arena V O} :
    ∀ (fuel i : Nat) (name : String) (v : V) (arena' : Arena V O),
      getValueAux arena fuel i name true = some (v, arena') →
      ∃ (j : Nat) (sd : ScopeData V O) (b : Binding V O),
        resolveAux arena fuel i name = some j ∧ arena[j]? = some sd ∧
        lookupLocal sd.bindings name = some b ∧ v = b.value ∧
        arena' = markUsedAt arena j name := by
  intro fuel
  induction fuel with
  | zero => intro i name v arena' h; simp [getValueAux] at h
  | succ fuel ih =>
    intro i name v arena' h
    cases hsd : arena[i]? with
    | none => simp [getValueAux, hsd] at h
    | some sd =>
      cases hl : lookupLocal sd.bindings name with
      | some b =>
        simp only [getValueAux, hsd, hl, if_true, Option.some.injEq,
          Prod.mk.injEq] at h
        exact ⟨i, sd, b, by simp [resolveAux, hsd, hl], hsd, hl,
          h.1.symm, h.2.symm⟩
      | none =>
        cases hp : sd.parent with
        | none => simp [getValueAux, hsd, hl, hp] at h
        | some p =>
          simp only [getValueAux, hsd, hl, hp] at h
          obtain ⟨j, sdj, b, hres, hj, hb, hv, ha⟩ := ih p name v arena' h
          exact ⟨j, sdj, b, by simp [resolveAux, hsd, hl, hp, hres], hj, hb,
            hv, ha⟩

theorem getMutableValueAux_false_frame {arena : Arena V O} :
    ∀ (fuel i : Nat) (name : String) (crossed : Bool) (v : V)
      (arena' : Arena V O),
      getMutableValueAux arena fuel i name false crossed =
        MutResult.found v arena' →
      arena' = arena := by
  intro fuel
  induction fuel with
  | zero => intro i name c v arena' h; simp [getMutableValueAux] at h
  | succ fuel ih =>
    intro i name c v arena' h
    cases hsd : arena[i]? with
    | none => simp [getMutableValueAux, hsd] at h
    | some sd =>
      cases hl : lookupLocal sd.bindings name with
      | some b =>
        cases c with
        | true => simp [getMutableValueAux, hsd, hl] at h
        | false =>
          simp only [getMutableValueAux, hsd, hl, Bool.false_eq_true,
            if_false, MutResult.found.injEq] at h
          exact h.2.symm
      | none =>
        cases hp : sd.parent with
        | none => simp [getMutableValueAux, hsd, hl, hp] at h
        | some p =>
          cases hpsd : arena[p]? with
          | none => simp [getMutableValueAux, hsd, hl, hp, hpsd] at h
          | some psd =>
            simp only [getMutableValueAux, hsd, hl, hp, hpsd] at h
            exact ih p name _ v arena' h

theorem getMutableValueAux_crossed_denied {arena : Arena V O} :
    ∀ (fuel i : Nat) (name : String) (mu : Bool) (v : V)
      (arena' : Arena V O),
      getValueAux arena fuel i name false = some (v, arena') →
      getMutableValueAux arena fuel i name mu true = MutResult.denied := by
  intro fuel
  induction fuel with
  | zero => intro i name mu v arena' h; simp [getValueAux] at h
  | succ fuel ih =>
    intro i name mu v arena' h
    cases hsd : arena[i]? with
    | none => simp [getValueAux, hsd] at h
    | some sd =>
      cases hl : lookupLocal sd.bindings name with
      | some b => simp [getMutableValueAux, hsd, hl]
      | none =>
        cases hp : sd.parent with
        | none => simp [getValueAux, hsd, hl, hp] at h
        | some p =>
          simp only [getValueAux, hsd, hl, hp] at h
          cases hpsd : arena[p]? with
          | none =>
            rw [getValueAux_none_of_get_none hpsd] at h
            exact absurd h (by simp)
          | some psd =>
            simp only [getMutableValueAux, hsd, hl, hp, hpsd, Bool.true_or]
            exact ih p name mu v arena' h

theorem getMutable_denied_of_runMiss {arena : Arena V O} :
    ∀ (fuel i : Nat) (name : String) (mu : Bool) (v : V)
      (arena' : Arena V O),
      runLookup (mutableRun arena fuel i) name = none →
      getValueAux arena fuel i name false = some (v, arena') →
      getMutableValueAux arena fuel i name mu false = MutResult.denied := by
  intro fuel
  induction fuel with
  | zero => intro i name mu v arena' hmiss h; simp [getValueAux] at h
  | succ fuel ih =>
    intro i name mu v arena' hmiss h
    cases hsd : arena[i]? with
    | none => simp [getValueAux, hsd] at h
    | some sd =>
      cases hp : sd.parent with
      | none =>
        have hl : lookupLocal sd.bindings name = none := by
          have : mutableRun arena (fuel + 1) i = [sd.bindings] := by
            simp [mutableRun, hsd, hp]
          rw [this] at hmiss
          simp only [runLookup] at hmiss
          cases hl' : lookupLocal sd.bindings name with
          | none => rfl
          | some b => rw [hl'] at hmiss; exact absurd hmiss (by simp)
        simp [getValueAux, hsd, hl, hp] at h
      | some p =>
        cases hpsd : arena[p]? with
        | none =>
          have hl : lookupLocal sd.bindings name = none := by
            have : mutableRun arena (fuel + 1) i = [sd.bindings] := by
              simp [mutableRun, hsd, hp, hpsd]
            rw [this] at hmiss
            simp only [runLookup] at hmiss
            cases hl' : lookupLocal sd.bindings name with
            | none => rfl
            | some b => rw [hl'] at hmiss; exact absurd hmiss (by simp)
          simp only [getValueAux, hsd, hl, hp] at h
          rw [getValueAux_none_of_get_none hpsd] at h
          exact absurd h (by simp)
        | some psd =>
          by_cases hk : psd.kind = ScopeKind.readOnlyBoundary
          · have hrun : mutableRun arena (fuel + 1) i = [sd.bindings] := by
              simp [mutableRun, hsd, hp, hpsd, hk]
            rw [hrun] at hmiss
            simp only [runLookup] at hmiss
            have hl : lookupLocal sd.bindings name = none := by
              cases hl' : lookupLocal sd.bindings name with
              | none => rfl
              | some b => rw [hl'] at hmiss; exact absurd hmiss (by simp)
            simp only [getValueAux, hsd, hl, hp] at h
            simp only [getMutableValueAux, hsd, hl, hp, hpsd,
              decide_eq_true hk, Bool.false_or]
            exact getMutableValueAux_crossed_denied fuel p name mu v arena' h
          · have hrun : mutableRun arena (fuel + 1) i =
                sd.bindings :: mutableRun arena fuel p := by
              simp [mutableRun, hsd, hp, hpsd, hk]
            rw [hrun] at hmiss
            simp only [runLookup] at hmiss
            have hl : lookupLocal sd.bindings name = none := by
              cases hl' : lookupLocal sd.bindings name with
              | none => rfl
              | some b => rw [hl'] at hmiss; exact absurd hmiss (by simp)
            rw [hl] at hmiss
            simp only [getValueAux, hsd, hl, hp] at h
            simp only [getMutableValueAux, hsd, hl, hp, hpsd]
            have hk' : decide (psd.kind = ScopeKind.readOnlyBoundary) = false :=
              decide_eq_false hk
            rw [hk']
            simp only [Bool.or_false]
            exact ih p name mu v arena' hmiss h

theorem roBoundary_kind {arena : Arena V O} :
    ∀ (fuel i p : Nat), roBoundary arena fuel i = some p →
      ∃ psd : ScopeData V O, arena[p]? = some psd ∧
        psd.kind = ScopeKind.readOnlyBoundary := by
  intro fuel
  induction fuel with
  | zero => intro i p h; simp [roBoundary] at h
  | succ fuel ih =>
    intro i p h
    cases hsd : arena[i]? with
    | none => simp [roBoundary, hsd] at h
    | some sd =>
      cases hp : sd.parent with
      | none => simp [roBoundary, hsd, hp] at h
      | some q =>
        cases hq : arena[q]? with
        | none => simp [roBoundary, hsd, hp, hq] at h
        | some qsd =>
          by_cases hk : qsd.kind = ScopeKind.readOnlyBoundary
          · have : roBoundary arena (fuel + 1) i = some q := by
              simp [roBoundary, hsd, hp, hq, hk]
            rw [this] at h
            cases h
            exact ⟨qsd, hq, hk⟩
          · have : roBoundary arena (fuel + 1) i = roBoundary arena fuel q := by
              simp [roBoundary, hsd, hp, hq, hk]
            rw [this] at h
            exact ih q p h

theorem mutableRun_mem {arena : Arena V O} :
    ∀ (fuel i : Nat) (bs : List (String × Binding V O)),
      bs ∈ mutableRun arena fuel i →
      ∃ (j : Nat) (sd : ScopeData V O), arena[j]? = some sd ∧ bs = sd.bindings := by
  intro fuel
  induction fuel with
  | zero => intro i bs h; simp [mutableRun] at h
  | succ fuel ih =>
    intro i bs h
    cases hsd : arena[i]? with
    | none => simp [mutableRun, hsd] at h
    | some sd =>
      cases hp : sd.parent with
      | none =>
        have : mutableRun arena (fuel + 1) i = [sd.bindings] := by
          simp [mutableRun, hsd, hp]
        rw [this] at h
        simp only [List.mem_singleton] at h
        exact ⟨i, sd, hsd, h⟩
      | some p =>
        cases hq : arena[p]? with
        | none =>
          have : mutableRun arena (fuel + 1) i = [sd.bindings] := by
            simp [mutableRun, hsd, hp, hq]
          rw [this] at h
          simp only [List.mem_singleton] at h
          exact ⟨i, sd, hsd, h⟩
        | some psd =>
          by_cases hk : psd.kind = ScopeKind.readOnlyBoundary
          · have : mutableRun arena (fuel + 1) i = [sd.bindings] := by
              simp [mutableRun, hsd, hp, hq, hk]
            rw [this] at h
            simp only [List.mem_singleton] at h
            exact ⟨i, sd, hsd, h⟩
          · have : mutableRun arena (fuel + 1) i =
                sd.bindings :: mutableRun arena fuel p := by
              simp [mutableRun, hsd, hp, hq, hk]
            rw [this] at h
            rcases List.mem_cons.mp h with h | h
            · exact ⟨i, sd, hsd, h⟩
            · exact ih p bs h

theorem markUsedAt_getElem_self {arena : Arena V O} {j : Nat} (name : String)
    {sd : ScopeData V O} (hsd : arena[j]? = some sd) :
    (markUsedAt arena j name)[j]? =
      some { sd with bindings := markLocalUsed sd.bindings name } := by
  have hlt : j < arena.length := by
    by_contra hge
    rw [List.getElem?_eq_none (Nat.le_of_not_lt hge)] at hsd
    exact Option.noConfusion hsd
  simp only [markUsedAt, hsd]
  exact List.getElem?_set_eq_of_lt _ (by simpa using hlt)

/-! ### Lemmas about the merger -/

theorem mergeLocal_preserves_not_mem {name : String} :
    ∀ (src target : List (String × Binding V O)) (clobber : Bool)
      (desc : String) (bs : List (String × Binding V O)),
      name ∉ src.map Prod.fst →
      mergeLocal target src clobber desc = Except.ok bs →
      lookupLocal bs name = lookupLocal target name := by
  intro src
  induction src with
  | nil =>
    intro target clobber desc bs hname h
    cases h
    rfl
  | cons hd rest ih =>
    intro target clobber desc bs hname h
    obtain ⟨n, b⟩ := hd
    simp only [List.map_cons, List.mem_cons, not_or] at hname
    have hne : n ≠ name := fun he => hname.1 he.symm
    cases ht : lookupLocal target n with
    | none =>
      simp only [mergeLocal, ht] at h
      rw [ih _ clobber desc bs hname.2 h, lookupLocal_setLocal_ne _ _ hne]
    | some tb =>
      by_cases hv : tb.value = b.value
      · simp only [mergeLocal, ht, if_pos hv] at h
        exact ih _ clobber desc bs hname.2 h
      · cases clobber with
        | true =>
          simp only [mergeLocal, ht, if_neg hv, if_true] at h
          rw [ih _ true desc bs hname.2 h, lookupLocal_setLocal_ne _ _ hne]
        | false =>
          simp only [mergeLocal, ht, if_neg hv, Bool.false_eq_true,
            if_false] at h
          cases h

theorem mergeLocal_clobber_ok :
    ∀ (src target : List (String × Binding V O)) (desc : String),
      ∃ bs, mergeLocal target src true desc = Except.ok bs := by
  intro src
  induction src with
  | nil => intro target desc; exact ⟨target, rfl⟩
  | cons hd rest ih =>
    intro target desc
    obtain ⟨n, b⟩ := hd
    cases ht : lookupLocal target n with
    | none =>
      obtain ⟨bs, hbs⟩ := ih (setLocal target n b) desc
      exact ⟨bs, by simp only [mergeLocal, ht]; exact hbs⟩
    | some tb =>
      by_cases hv : tb.value = b.value
      · obtain ⟨bs, hbs⟩ := ih target desc
        exact ⟨bs, by simp only [mergeLocal, ht, if_pos hv]; exact hbs⟩
      · obtain ⟨bs, hbs⟩ := ih (setLocal target n b) desc
        refine ⟨bs, ?_⟩
        simp only [mergeLocal, ht, if_neg hv, if_true]
        exact hbs

theorem mergeLocal_collision {name : String} :
    ∀ (src target : List (String × Binding V O)) (desc : String)
      (tb sb : Binding V O),
      (src.map Prod.fst).Nodup →
      lookupLocal src name = some sb →
      lookupLocal target name = some tb →
      tb.value ≠ sb.value →
      ∃ e : CollisionError O,
        mergeLocal target src false desc = Except.error e ∧
        e.description = desc ∧
        ∃ (n : String) (tb' sb' : Binding V O),
          lookupLocal target n = some tb' ∧ lookupLocal src n = some sb' ∧
          tb'.value ≠ sb'.value ∧
          e.targetOrigin = tb'.origin ∧ e.sourceOrigin = sb'.origin := by
  intro src
  induction src with
  | nil => intro target desc tb sb hnodup hs ht hne; simp [lookupLocal] at hs
  | cons hd rest ih =>
    intro target desc tb sb hnodup hs ht hne
    obtain ⟨n, b⟩ := hd
    simp only [List.map_cons, List.nodup_cons] at hnodup
    cases htn : lookupLocal target n with
    | none =>
      have hnn : n ≠ name := by
        intro he
        subst he
        rw [ht] at htn
        cases htn
      have hs' : lookupLocal rest name = some sb := by
        simpa [lookupLocal, hnn] using hs
      have ht' : lookupLocal (setLocal target n b) name = some tb := by
        rw [lookupLocal_setLocal_ne _ _ hnn]; exact ht
      obtain ⟨e, he, hdesc, n', tb', sb', htn', hsn', hvne, ho1, ho2⟩ :=
        ih (setLocal target n b) desc tb sb hnodup.2 hs' ht' hne
      refine ⟨e, ?_, hdesc, n', tb', sb', ?_, ?_, hvne, ho1, ho2⟩
      · simp only [mergeLocal, htn]; exact he
      · have hn'n : n' ≠ n := by
          intro he'
          subst he'
          exact hnodup.1 (mem_keys_of_lookupLocal hsn')
        rw [lookupLocal_setLocal_ne _ _ (Ne.symm hn'n)] at htn'
        exact htn'
      · have hn'n : n' ≠ n := by
          intro he'
          subst he'
          exact hnodup.1 (mem_keys_of_lookupLocal hsn')
        simp only [lookupLocal, if_neg (Ne.symm hn'n)]
        exact hsn'
    | some tb0 =>
      by_cases hv : tb0.value = b.value
      · have hnn : n ≠ name := by
          intro he
          subst he
          rw [ht] at htn
          cases htn
          have hb : b = sb := by simpa [lookupLocal] using hs
          subst hb
          exact hne hv
        have hs' : lookupLocal rest name = some sb := by
          simpa [lookupLocal, hnn] using hs
        obtain ⟨e, he, hdesc, n', tb', sb', htn', hsn', hvne, ho1, ho2⟩ :=
          ih target desc tb sb hnodup.2 hs' ht hne
        refine ⟨e, ?_, hdesc, n', tb', sb', htn', ?_, hvne, ho1, ho2⟩
        · simp only [mergeLocal, htn, if_pos hv]; exact he
        · have hn'n : n' ≠ n := by
            intro he'
            subst he'
            exact hnodup.1 (mem_keys_of_lookupLocal hsn')
          simp only [lookupLocal, if_neg (Ne.symm hn'n)]
          exact hsn'
      · refine ⟨⟨tb0.origin, b.origin, desc⟩, ?_, rfl, n, tb0, b, htn, ?_,
          hv, rfl, rfl⟩
        · simp [mergeLocal, htn, if_neg hv]
        · simp [lookupLocal]

theorem mergeLocal_clobber_lookup {name : String} :
    ∀ (src target : List (String × Binding V O)) (desc : String)
      (tb sb : Binding V O),
      (src.map Prod.fst).Nodup →
      lookupLocal src name = some sb →
      lookupLocal target name = some tb →
      tb.value ≠ sb.value →
      ∃ bs, mergeLocal target src true desc = Except.ok bs ∧
        lookupLocal bs name = some sb := by
  intro src
  induction src with
  | nil => intro target desc tb sb hnodup hs ht hne; simp [lookupLocal] at hs
  | cons hd rest ih =>
    intro target desc tb sb hnodup hs ht hne
    obtain ⟨n, b⟩ := hd
    simp only [List.map_cons, List.nodup_cons] at hnodup
    by_cases hnn : n = name
    · subst hnn
      have hb : b = sb := by simpa [lookupLocal] using hs
      subst hb
      have hv : ¬ tb.value = b.value := hne
      obtain ⟨bs, hbs⟩ := mergeLocal_clobber_ok rest (setLocal target n b) desc
      refine ⟨bs, ?_, ?_⟩
      · simp only [mergeLocal, ht, if_neg hv, if_true]; exact hbs
      · have hrest : n ∉ rest.map Prod.fst := hnodup.1
        rw [mergeLocal_preserves_not_mem rest _ true desc bs hrest hbs,
          lookupLocal_setLocal_self]
    · have hs' : lookupLocal rest name = some sb := by
        simpa [lookupLocal, hnn] using hs
      cases htn : lookupLocal target n with
      | none =>
        have ht' : lookupLocal (setLocal target n b) name = some tb := by
          rw [lookupLocal_setLocal_ne _ _ hnn]; exact ht
        obtain ⟨bs, hbs, hlk⟩ :=
          ih (setLocal target n b) desc tb sb hnodup.2 hs' ht' hne
        exact ⟨bs, by simp only [mergeLocal, htn]; exact hbs, hlk⟩
      | some tb0 =>
        by_cases hv : tb0.value = b.value
        · obtain ⟨bs, hbs, hlk⟩ := ih target desc tb sb hnodup.2 hs' ht hne
          exact ⟨bs, by simp only [mergeLocal, htn, if_pos hv]; exact hbs, hlk⟩
        · have ht' : lookupLocal (setLocal target n b) name = some tb := by
            rw [lookupLocal_setLocal_ne _ _ hnn]; exact ht
          obtain ⟨bs, hbs, hlk⟩ :=
            ih (setLocal target n b) desc tb sb hnodup.2 hs' ht' hne
          refine ⟨bs, ?_, hlk⟩
          simp only [mergeLocal, htn, if_neg hv, if_true]
          exact hbs

theorem mergeLocal_all_equal {O : Type} {V : Type} [DecidableEq V] :
    ∀ (src target : List (String × Binding V O)) (clobber : Bool)
      (desc : String),
      (src.map Prod.fst).Nodup →
      (∀ (n : String) (tb sb : Binding V O), lookupLocal target n = some tb →
        lookupLocal src n = some sb → tb.value = sb.value) →
      ∃ bs, mergeLocal target src clobber desc = Except.ok bs ∧
        ∀ (name : String) (tb : Binding V O),
          lookupLocal target name = some tb →
          lookupLocal bs name = some tb := by
  intro src
  induction src with
  | nil =>
    intro target clobber desc hnodup hall
    exact ⟨target, rfl, fun name tb h => h⟩
  | cons hd rest ih =>
    intro target clobber desc hnodup hall
    obtain ⟨n, b⟩ := hd
    simp only [List.map_cons, List.nodup_cons] at hnodup
    have hsrcn : lookupLocal ((n, b) :: rest) n = some b := by
      simp [lookupLocal]
    cases htn : lookupLocal target n with
    | none =>
      have hall' : ∀ (n' : String) (tb sb : Binding V O),
          lookupLocal (setLocal target n b) n' = some tb →
          lookupLocal rest n' = some sb → tb.value = sb.value := by
        intro n' tb sb htb hsb
        have hn'n : n' ≠ n := by
          intro he
          subst he
          exact hnodup.1 (mem_keys_of_lookupLocal hsb)
        rw [lookupLocal_setLocal_ne _ _ (Ne.symm hn'n)] at htb
        refine hall n' tb sb htb ?_
        simp only [lookupLocal, if_neg (Ne.symm hn'n)]
        exact hsb
      obtain ⟨bs, hbs, hpres⟩ := ih (setLocal target n b) clobber desc
        hnodup.2 hall'
      refine ⟨bs, by simp only [mergeLocal, htn]; exact hbs, ?_⟩
      intro name tb htb
      have hnn : name ≠ n := by
        intro he
        subst he
        rw [htb] at htn
        cases htn
      refine hpres name tb ?_
      rw [lookupLocal_setLocal_ne _ _ (Ne.symm hnn)]
      exact htb
    | some tb0 =>
      have hv : tb0.value = b.value := hall n tb0 b htn hsrcn
      have hall' : ∀ (n' : String) (tb sb : Binding V O),
          lookupLocal target n' = some tb →
          lookupLocal rest n' = some sb → tb.value = sb.value := by
        intro n' tb sb htb hsb
        have hn'n : n' ≠ n := by
          intro he
          subst he
          exact hnodup.1 (mem_keys_of_lookupLocal hsb)
        refine hall n' tb sb htb ?_
        simp only [lookupLocal, if_neg (Ne.symm hn'n)]
        exact hsb
      obtain ⟨bs, hbs, hpres⟩ := ih target clobber desc hnodup.2 hall'
      exact ⟨bs, by simp only [mergeLocal, htn, if_pos hv]; exact hbs, hpres⟩

theorem mergeLocal_disjoint :
    ∀ (src target : List (String × Binding V O)) (clobber : Bool)
      (desc : String),
      (src.map Prod.fst).Nodup →
      (∀ n ∈ src.map Prod.fst, n ∉ target.map Prod.fst) →
      mergeLocal target src clobber desc = Except.ok (target ++ src) := by
  intro src
  induction src with
  | nil => intro target clobber desc _ _; simp [mergeLocal]
  | cons hd rest ih =>
    intro target clobber desc hnodup hdisj
    obtain ⟨n, b⟩ := hd
    simp only [List.map_cons, List.nodup_cons] at hnodup
    have hn : n ∉ target.map Prod.fst :=
      hdisj n (by simp)
    have htn : lookupLocal target n = none := lookupLocal_eq_none_of_not_mem hn
    have hset : setLocal target n b = target ++ [(n, b)] := setLocal_append b hn
    have hdisj' : ∀ n' ∈ rest.map Prod.fst,
        n' ∉ (target ++ [(n, b)]).map Prod.fst := by
      intro n' hn' hmem
      simp only [List.map_append, List.mem_append, List.map_cons,
        List.map_nil, List.mem_singleton] at hmem
      rcases hmem with hmem | hmem
      · exact hdisj n' (by simp [hn']) hmem
      · exact hnodup.1 (hmem ▸ hn')
    have := ih (target ++ [(n, b)]) clobber desc hnodup.2 hdisj'
    simp only [mergeLocal, htn, hset]
    rw [this]
    simp

theorem mutableRun_storeOk {arena : Arena V O} (hok : ArenaOk arena)
    (fuel i : Nat) :
    ∀ bs ∈ mutableRun arena fuel i, (bs.map Prod.fst).Nodup := by
  intro bs hbs
  obtain ⟨j, sd, hj, hbind⟩ := mutableRun_mem fuel i bs hbs
  rw [hbind]
  exact hok.2 sd (List.getElem?_mem hj)

/-- The binding visible at a name from the captured scopes of a closure: the
local store alone when the scope is itself a read-only boundary, the
nearest-first search of the mutable run otherwise. -/
def capturedLookup (arena : Arena V O) (i : Nat) (name : String) :
    Option (Binding V O) :=
  match arena[i]? with
  | none => none
  | some sd =>
    if sd.kind = ScopeKind.readOnlyBoundary then lookupLocal sd.bindings name
    else runLookup (mutableRun arena (i + 1) i) name

/-! ### The claims -/

/-- C1: for a scope S whose kind is mutable (so the run of mutable scopes
below the first ReadOnlyBoundary is non-empty, S itself being in it),
MakeClosure returns a new scope whose bindings are the union of the local
bindings of the run applied farthest-first — a lookup in the closure gives
exactly the nearest matching binding of the run — and whose parent is a
reference to the first ReadOnlyBoundary ancestor (a scope whose kind really is
ReadOnlyBoundary), or none if the chain ends without one. -/
theorem makeClosure_flattens_mutable_run (arena : Arena V O) (i : Nat)
    (sd : ScopeData V O) (hok : ArenaOk arena) (hsd : arena[i]? = some sd)
    (hmut : sd.kind = ScopeKind.mutableScope) :
    ∃ cl : ScopeData V O, makeClosure arena i = some cl ∧
      cl.parent = roBoundary arena (i + 1) i ∧
      (∀ p : Nat, cl.parent = some p →
        ∃ psd : ScopeData V O, arena[p]? = some psd ∧
          psd.kind = ScopeKind.readOnlyBoundary) ∧
      (∀ name : String, lookupLocal cl.bindings name =
        (runLookup (mutableRun arena (i + 1) i) name).map
          (fun b => { b with used := false })) := by
  have hk : ¬ sd.kind = ScopeKind.readOnlyBoundary := by
    rw [hmut]; intro h; cases h
  refine ⟨⟨((mutableRun arena (i + 1) i).reverse).foldl overlayStore [],
    roBoundary arena (i + 1) i, ScopeKind.mutableScope⟩, ?_, rfl, ?_, ?_⟩
  · simp [makeClosure, hsd, hk]
  · intro p hp
    exact roBoundary_kind (i + 1) i p hp
  · intro name
    have := lookupLocal_foldl_overlay name
      (mutableRun_storeOk hok (i + 1) i) ([] : List (String × Binding V O))
    rw [this]
    cases hr : runLookup (mutableRun arena (i + 1) i) name with
    | some b => simp
    | none => simp [lookupLocal]

/-- C2: merging a source scope into a target scope that binds some name to a
value different from the source binding, with clobber disallowed, fails with a
collision error carrying the origins of the two colliding bindings and the
caller-supplied description, and produces no merged scope at all (the merge is
atomic, so the target binding is untouched). -/
theorem nonRecursiveMergeTo_collision_error (source target : ScopeData V O)
    (blame : O) (desc name : String) (tb sb : Binding V O)
    (hnodup : StoreOk source.bindings)
    (hs : lookupLocal source.bindings name = some sb)
    (ht : lookupLocal target.bindings name = some tb)
    (hne : tb.value ≠ sb.value) :
    ∃ e : CollisionError O,
      nonRecursiveMergeTo source target false blame desc = Except.error e ∧
      e.description = desc ∧
      (∃ (n : String) (tb' sb' : Binding V O),
        lookupLocal target.bindings n = some tb' ∧
        lookupLocal source.bindings n = some sb' ∧
        tb'.value ≠ sb'.value ∧
        e.targetOrigin = tb'.origin ∧ e.sourceOrigin = sb'.origin) ∧
      (∀ res : ScopeData V O,
        nonRecursiveMergeTo source target false blame desc ≠
          Except.ok res) := by
  obtain ⟨e, he, hdesc, n, tb', sb', h1, h2, h3, h4, h5⟩ :=
    mergeLocal_collision source.bindings target.bindings desc tb sb
      hnodup hs ht hne
  refine ⟨e, ?_, hdesc, ⟨n, tb', sb', h1, h2, h3, h4, h5⟩, ?_⟩
  · simp [nonRecursiveMergeTo, he]
  · intro res hres
    simp [nonRecursiveMergeTo, he] at hres

/-- C3: when a name is bound in none of the scopes of the mutable run below
the first read-only boundary but the full nearest-first chain search does find
it (so the only reachable binding is owned at or above the boundary),
GetMutableValue answers with the distinguishable denied result while GetValue
on the same scope and name succeeds. -/
theorem getMutableValue_denied_across_boundary (arena : Arena V O) (i : Nat)
    (name : String) (mu : Bool) (v : V) (arena' : Arena V O)
    (hmiss : runLookup (mutableRun arena (i + 1) i) name = none)
    (hfound : getValue arena i name false = some (v, arena')) :
    getMutableValue arena i name mu = MutResult.denied ∧
    (getValue arena i name false).isSome = true := by
  constructor
  · exact getMutable_denied_of_runMiss (i + 1) i name mu v arena' hmiss hfound
  · rw [hfound]; rfl

/-- C4: CheckForUnusedVars on a scope fails exactly when some binding of its
own local store has a false used-flag, the reported error naming the offending
binding and carrying its origin; and when a lookup with markUsed set — even
one invoked on a descendant scope whose search resolves to this scope —
touches the one still-unused binding, a subsequent check succeeds. -/
theorem checkForUnusedVars_iff_and_markUsed_flips (arena : Arena V O)
    (j : Nat) (sd : ScopeData V O) (hsd : arena[j]? = some sd)
    (hnodup : StoreOk sd.bindings) :
    ((checkForUnusedVars arena j).isSome = true ↔
      ∃ nb ∈ sd.bindings, nb.2.used = false) ∧
    (∀ e : UnusedVariableError O, checkForUnusedVars arena j = some e →
      ∃ nb ∈ sd.bindings, nb.2.used = false ∧ e.name = nb.1 ∧
        e.origin = nb.2.origin) ∧
    (∀ (d : Nat) (name : String) (v : V) (arena' : Arena V O),
      getValue arena d name true = some (v, arena') →
      resolveScope arena d name = some j →
      (∀ nb ∈ sd.bindings, nb.1 ≠ name → nb.2.used = true) →
      checkForUnusedVars arena' j = none) := by
  have hcheck : checkForUnusedVars arena j = firstUnused sd.bindings := by
    simp [checkForUnusedVars, hsd]
  refine ⟨?_, ?_, ?_⟩
  · rw [hcheck]
    exact firstUnused_isSome_iff
  · intro e he
    rw [hcheck] at he
    exact firstUnused_some_spec he
  · intro d name v arena' hget hres hall
    obtain ⟨j', sd', b, hres', hj', hb', hv', ha'⟩ :=
      getValueAux_true_resolve (d + 1) d name v arena' hget
    rw [resolveScope] at hres
    rw [hres] at hres'
    cases hres'
    rw [hsd] at hj'
    cases hj'
    subst ha'
    have hmark := markUsedAt_getElem_self name hsd
    have : checkForUnusedVars (markUsedAt arena j name) j =
        firstUnused (markLocalUsed sd.bindings name) := by
      simp [checkForUnusedVars, hmark]
    rw [this]
    exact firstUnused_eq_none_iff.mpr (markLocalUsed_all_used hnodup hall)

/-- C5: merging a source scope into a target scope that binds some name to a
different value, with clobber allowed, succeeds with no error and overwrites
the target binding with the source binding (its value and origin), leaving
the target parent and kind untouched. -/
theorem nonRecursiveMergeTo_clobber_overwrites (source target : ScopeData V O)
    (blame : O) (desc name : String) (tb sb : Binding V O)
    (hnodup : StoreOk source.bindings)
    (hs : lookupLocal source.bindings name = some sb)
    (ht : lookupLocal target.bindings name = some tb)
    (hne : tb.value ≠ sb.value) :
    ∃ nt : ScopeData V O,
      nonRecursiveMergeTo source target true blame desc = Except.ok nt ∧
      lookupLocal nt.bindings name = some sb ∧
      nt.parent = target.parent ∧ nt.kind = target.kind := by
  obtain ⟨bs, hbs, hlk⟩ := mergeLocal_clobber_lookup source.bindings
    target.bindings desc tb sb hnodup hs ht hne
  exact ⟨{ target with bindings := bs },
    by simp [nonRecursiveMergeTo, hbs], hlk, rfl, rfl⟩

/-- C6: when every name collision between source and target is an equal-value
one, the merge succeeds with no error under either clobber setting, and a
target binding whose value equals the colliding source binding value is kept
verbatim (value and origin unchanged) even when the two origins differ. -/
theorem nonRecursiveMergeTo_equal_value_noop (source target : ScopeData V O)
    (blame : O) (desc name : String) (tb sb : Binding V O) (clobber : Bool)
    (hnodup : StoreOk source.bindings)
    (hall : ∀ (n : String) (tb' sb' : Binding V O),
      lookupLocal target.bindings n = some tb' →
      lookupLocal source.bindings n = some sb' → tb'.value = sb'.value)
    (hs : lookupLocal source.bindings name = some sb)
    (ht : lookupLocal target.bindings name = some tb)
    (heq : tb.value = sb.value) :
    ∃ nt : ScopeData V O,
      nonRecursiveMergeTo source target clobber blame desc = Except.ok nt ∧
      lookupLocal nt.bindings name = some tb := by
  obtain ⟨bs, hbs, hpres⟩ := mergeLocal_all_equal source.bindings
    target.bindings clobber desc hnodup hall
  exact ⟨{ target with bindings := bs },
    by simp [nonRecursiveMergeTo, hbs], hpres name tb ht⟩

/-- C7: MakeClosure on a scope that is itself a ReadOnlyBoundary (the
collected mutable run is empty) yields a parentless scope whose bindings are a
flat copy of the local bindings of the scope, and lookups of those bindings on
the closure succeed. -/
theorem makeClosure_on_boundary_flat_copy (arena : Arena V O) (i : Nat)
    (sd : ScopeData V O) (hsd : arena[i]? = some sd)
    (hro : sd.kind = ScopeKind.readOnlyBoundary) :
    ∃ cl : ScopeData V O, makeClosure arena i = some cl ∧
      cl.parent = none ∧ cl.bindings = resetUsedStore sd.bindings ∧
      ∀ (name : String) (b : Binding V O),
        lookupLocal sd.bindings name = some b →
        lookupLocal cl.bindings name = some { b with used := false } := by
  refine ⟨⟨resetUsedStore sd.bindings, none, ScopeKind.mutableScope⟩, ?_,
    rfl, rfl, ?_⟩
  · simp [makeClosure, hsd, hro]
  · intro name b hb
    show lookupLocal (resetUsedStore sd.bindings) name = _
    rw [lookupLocal_resetUsedStore, hb]
    rfl

/-- C8: every binding of the scope produced by MakeClosure has its used-flag
false, whatever the used-flags of the captured scopes were, and each binding
visible in the closure corresponds to the binding the captured scopes expose
for that name, with its value and origin carried through unchanged. -/
theorem makeClosure_resets_used_preserves_origins (arena : Arena V O)
    (i : Nat) (cl : ScopeData V O) (hok : ArenaOk arena)
    (hcl : makeClosure arena i = some cl) :
    (∀ nb ∈ cl.bindings, nb.2.used = false) ∧
    (∀ (name : String) (b : Binding V O),
      lookupLocal cl.bindings name = some b →
      ∃ b0 : Binding V O, capturedLookup arena i name = some b0 ∧
        b.value = b0.value ∧ b.origin = b0.origin ∧ b.used = false) := by
  cases hsd : arena[i]? with
  | none => simp [makeClosure, hsd] at hcl
  | some sd =>
    by_cases hk : sd.kind = ScopeKind.readOnlyBoundary
    · have hcl' : cl = ⟨resetUsedStore sd.bindings, none,
          ScopeKind.mutableScope⟩ := by
        have : makeClosure arena i = some ⟨resetUsedStore sd.bindings, none,
            ScopeKind.mutableScope⟩ := by simp [makeClosure, hsd, hk]
        rw [this] at hcl
        cases hcl
        rfl
      subst hcl'
      constructor
      · intro nb hnb
        exact mem_resetUsedStore_used hnb
      · intro name b hb
        show ∃ b0, capturedLookup arena i name = some b0 ∧ _
        have hcap : capturedLookup arena i name =
            lookupLocal sd.bindings name := by
          simp [capturedLookup, hsd, hk]
        rw [lookupLocal_resetUsedStore] at hb
        cases hb0 : lookupLocal sd.bindings name with
        | none => rw [hb0] at hb; cases hb
        | some b0 =>
          rw [hb0] at hb
          cases hb
          exact ⟨b0, by rw [hcap, hb0], rfl, rfl, rfl⟩
    · have hcl' : cl = ⟨((mutableRun arena (i + 1) i).reverse).foldl
          overlayStore [], roBoundary arena (i + 1) i,
          ScopeKind.mutableScope⟩ := by
        have : makeClosure arena i = some ⟨((mutableRun arena
            (i + 1) i).reverse).foldl overlayStore [],
            roBoundary arena (i + 1) i, ScopeKind.mutableScope⟩ := by
          simp [makeClosure, hsd, hk]
        rw [this] at hcl
        cases hcl
        rfl
      subst hcl'
      constructor
      · intro nb hnb
        exact foldl_overlay_used_false (by intro x hx; cases hx) nb hnb
      · intro name b hb
        have hcap : capturedLookup arena i name =
            runLookup (mutableRun arena (i + 1) i) name := by
          simp [capturedLookup, hsd, hk]
        have := lookupLocal_foldl_overlay name
          (mutableRun_storeOk hok (i + 1) i)
          ([] : List (String × Binding V O))
        rw [this] at hb
        cases hb0 : runLookup (mutableRun arena (i + 1) i) name with
        | none => rw [hb0] at hb; simp [lookupLocal] at hb
        | some b0 =>
          rw [hb0] at hb
          cases hb
          exact ⟨b0, by rw [hcap, hb0], rfl, rfl, rfl⟩

/-- C9: merging a source scope into a target scope whose local store is empty
succeeds with no error and leaves the target local store equal to the source
local store — the same names bound to the same values with the source
original origins, and nothing else — and the parent chain of the source is
never followed: replacing the source parent or kind changes nothing. -/
theorem nonRecursiveMergeTo_into_empty_target (source target : ScopeData V O)
    (blame : O) (desc : String) (clobber : Bool)
    (hnodup : StoreOk source.bindings) (hempty : target.bindings = []) :
    ∃ nt : ScopeData V O,
      nonRecursiveMergeTo source target clobber blame desc = Except.ok nt ∧
      nt.bindings = source.bindings ∧ nt.parent = target.parent ∧
      nt.kind = target.kind ∧
      ∀ (p : Option Nat) (k : ScopeKind),
        nonRecursiveMergeTo ⟨source.bindings, p, k⟩ target clobber blame
          desc = Except.ok nt := by
  have hdisj : ∀ n ∈ source.bindings.map Prod.fst,
      n ∉ target.bindings.map Prod.fst := by
    intro n _ hmem
    rw [hempty] at hmem
    simp at hmem
  have hmerge := mergeLocal_disjoint source.bindings target.bindings clobber
    desc hnodup hdisj
  rw [hempty] at hmerge
  simp only [List.nil_append] at hmerge
  refine ⟨{ target with bindings := source.bindings }, ?_, rfl, rfl, rfl, ?_⟩
  · simp only [nonRecursiveMergeTo, hempty, hmerge]
  · intro p k
    simp only [nonRecursiveMergeTo, hempty, hmerge]

/-- C10: a lookup with markUsed false that finds a binding — through GetValue
or GetMutableValue — leaves the arena completely unchanged: used-flags and
every other field of every scope keep their values, so a subsequent
CheckForUnusedVars on any scope gives exactly the result it would have given
before the lookup. -/
theorem lookup_without_markUsed_is_pure (arena : Arena V O) (i : Nat)
    (name : String) (v : V) (arena' : Arena V O)
    (h : getValue arena i name false = some (v, arena') ∨
      getMutableValue arena i name false = MutResult.found v arena') :
    arena' = arena ∧
    ∀ j : Nat, checkForUnusedVars arena' j = checkForUnusedVars arena j := by
  have heq : arena' = arena := by
    rcases h with h | h
    · exact getValueAux_false_frame (i + 1) i name v arena' h
    · exact getMutableValueAux_false_frame (i + 1) i name false v arena' h
  subst heq
  exact ⟨rfl, fun j => rfl⟩

/-! ### Concrete witness data, mirroring the scenarios of scope_unittest.cc -/

/-- The MakeClosure test chain: read-only root, mutable nested1 and nested2,
with the shadowing bindings of the unit test. -/
def wArena : Arena String Nat :=
  [⟨[("on_root", ⟨"on_root", 0, false⟩)], none, ScopeKind.readOnlyBoundary⟩,
   ⟨[("on_one", ⟨"on_one", 1, false⟩)], some 0, ScopeKind.mutableScope⟩,
   ⟨[("on_one", ⟨"on_two", 2, false⟩), ("on_two", ⟨"on_two2", 3, false⟩)],
     some 1, ScopeKind.mutableScope⟩]

/-- The GetMutableValue test chain: root scope holding on_const behind a
read-only boundary, two mutable nested scopes. -/
def gArena : Arena String Nat :=
  [⟨[("on_const", ⟨"hello", 0, false⟩)], none, ScopeKind.readOnlyBoundary⟩,
   ⟨[("on_mutable1", ⟨"hello", 1, false⟩)], some 0, ScopeKind.mutableScope⟩,
   ⟨[("on_mutable2", ⟨"hello", 2, false⟩)], some 1, ScopeKind.mutableScope⟩]

/-- The merge-test source scope: v bound to hello. -/
def mSource : ScopeData String Nat :=
  ⟨[("v", ⟨"hello", 10, false⟩)], none, ScopeKind.mutableScope⟩

/-- A merge-test target already binding v to goodbye. -/
def mTargetGoodbye : ScopeData String Nat :=
  ⟨[("v", ⟨"goodbye", 20, false⟩)], none, ScopeKind.mutableScope⟩

/-- A merge-test target binding v to hello with a different origin. -/
def mTargetHello : ScopeData String Nat :=
  ⟨[("v", ⟨"hello", 20, false⟩)], none, ScopeKind.mutableScope⟩

/-- A merge-test target with an empty local store. -/
def mTargetEmpty : ScopeData String Nat :=
  ⟨[], some 7, ScopeKind.mutableScope⟩

/-- The closure MakeClosure builds on scope 2 of wArena. -/
def wClosure : ScopeData String Nat :=
  ⟨[("on_one", ⟨"on_two", 2, false⟩), ("on_two", ⟨"on_two2", 3, false⟩)],
    some 0, ScopeKind.mutableScope⟩

theorem makeClosure_flattens_mutable_run_witness :
    ∃ cl : ScopeData String Nat, makeClosure wArena 2 = some cl ∧
      cl.parent = some 0 ∧
      (∃ psd : ScopeData String Nat, wArena[0]? = some psd ∧
        psd.kind = ScopeKind.readOnlyBoundary) ∧
      lookupLocal cl.bindings "on_one" = some ⟨"on_two", 2, false⟩ ∧
      lookupLocal cl.bindings "on_two" = some ⟨"on_two2", 3, false⟩ ∧
      lookupLocal cl.bindings "on_root" = none := by
  obtain ⟨cl, h1, h2, h3, h4⟩ := makeClosure_flattens_mutable_run wArena 2
    ⟨[("on_one", ⟨"on_two", 2, false⟩), ("on_two", ⟨"on_two2", 3, false⟩)],
      some 1, ScopeKind.mutableScope⟩ (by decide) (by decide) (by decide)
  have hp : cl.parent = some 0 := by rw [h2]; decide
  refine ⟨cl, h1, hp, h3 0 hp, ?_, ?_, ?_⟩
  · rw [h4 "on_one"]; decide
  · rw [h4 "on_two"]; decide
  · rw [h4 "on_root"]; decide

theorem nonRecursiveMergeTo_collision_error_witness :
    ∃ e : CollisionError Nat,
      nonRecursiveMergeTo mSource mTargetGoodbye false 99 "error" =
        Except.error e ∧
      e.description = "error" ∧ e.targetOrigin = 20 ∧ e.sourceOrigin = 10 ∧
      ∀ res : ScopeData String Nat,
        nonRecursiveMergeTo mSource mTargetGoodbye false 99 "error" ≠
          Except.ok res := by
  obtain ⟨e, h1, h2, ⟨n, tb, sb, ht, hs, hv, ho1, ho2⟩, h4⟩ :=
    nonRecursiveMergeTo_collision_error mSource mTargetGoodbye 99 "error"
      "v" ⟨"goodbye", 20, false⟩ ⟨"hello", 10, false⟩ (by decide) (by decide)
      (by decide) (by decide)
  have hn : n = "v" := by
    have := mem_keys_of_lookupLocal hs
    simpa [mSource] using this
  subst hn
  have htb : tb = ⟨"goodbye", 20, false⟩ := by
    have : lookupLocal mTargetGoodbye.bindings "v" =
        some ⟨"goodbye", 20, false⟩ := by decide
    rw [this] at ht
    cases ht
    rfl
  have hsb : sb = ⟨"hello", 10, false⟩ := by
    have : lookupLocal mSource.bindings "v" = some ⟨"hello", 10, false⟩ := by
      decide
    rw [this] at hs
    cases hs
    rfl
  subst htb
  subst hsb
  exact ⟨e, h1, h2, ho1, ho2, h4⟩

theorem getMutableValue_denied_across_boundary_witness :
    getMutableValue gArena 2 "on_const" true = MutResult.denied ∧
    (getValue gArena 2 "on_const" false).isSome = true :=
  getMutableValue_denied_across_boundary gArena 2 "on_const" true "hello"
    gArena (by decide) (by decide)

theorem checkForUnusedVars_iff_and_markUsed_flips_witness :
    (checkForUnusedVars gArena 1).isSome = true ∧
    checkForUnusedVars (markUsedAt gArena 1 "on_mutable1") 1 = none := by
  have h := checkForUnusedVars_iff_and_markUsed_flips gArena 1
    ⟨[("on_mutable1", ⟨"hello", 1, false⟩)], some 0, ScopeKind.mutableScope⟩
    (by decide) (by decide)
  constructor
  · exact h.1.mpr ⟨("on_mutable1", ⟨"hello", 1, false⟩), by decide, rfl⟩
  · exact h.2.2 2 "on_mutable1" "hello" (markUsedAt gArena 1 "on_mutable1")
      (by decide) (by decide) (by decide)

theorem nonRecursiveMergeTo_clobber_overwrites_witness :
    ∃ nt : ScopeData String Nat,
      nonRecursiveMergeTo mSource mTargetGoodbye true 99 "error" =
        Except.ok nt ∧
      lookupLocal nt.bindings "v" = some ⟨"hello", 10, false⟩ := by
  obtain ⟨nt, h1, h2, _, _⟩ := nonRecursiveMergeTo_clobber_overwrites mSource
    mTargetGoodbye 99 "error" "v" ⟨"goodbye", 20, false⟩ ⟨"hello", 10, false⟩
    (by decide) (by decide) (by decide) (by decide)
  exact ⟨nt, h1, h2⟩

theorem nonRecursiveMergeTo_equal_value_noop_witness :
    (∃ nt : ScopeData String Nat,
      nonRecursiveMergeTo mSource mTargetHello false 99 "error" =
        Except.ok nt ∧
      lookupLocal nt.bindings "v" = some ⟨"hello", 20, false⟩) ∧
    (∃ nt : ScopeData String Nat,
      nonRecursiveMergeTo mSource mTargetHello true 99 "error" =
        Except.ok nt ∧
      lookupLocal nt.bindings "v" = some ⟨"hello", 20, false⟩) := by
  have hall : ∀ (n : String) (tb' sb' : Binding String Nat),
      lookupLocal mTargetHello.bindings n = some tb' →
      lookupLocal mSource.bindings n = some sb' →
      tb'.value = sb'.value := by
    intro n tb sb ht hs
    simp only [mTargetHello, lookupLocal] at ht
    simp only [mSource, lookupLocal] at hs
    by_cases hn : ("v" : String) = n
    · rw [if_pos hn] at ht hs
      cases ht
      cases hs
      rfl
    · rw [if_neg hn] at ht
      cases ht
  constructor
  · exact nonRecursiveMergeTo_equal_value_noop mSource mTargetHello 99
      "error" "v" ⟨"hello", 20, false⟩ ⟨"hello", 10, false⟩ false (by decide)
      hall (by decide) (by decide) rfl
  · exact nonRecursiveMergeTo_equal_value_noop mSource mTargetHello 99
      "error" "v" ⟨"hello", 20, false⟩ ⟨"hello", 10, false⟩ true (by decide)
      hall (by decide) (by decide) rfl

theorem makeClosure_on_boundary_flat_copy_witness :
    ∃ cl : ScopeData String Nat, makeClosure wArena 0 = some cl ∧
      cl.parent = none ∧
      lookupLocal cl.bindings "on_root" = some ⟨"on_root", 0, false⟩ := by
  obtain ⟨cl, h1, h2, h3, h4⟩ := makeClosure_on_boundary_flat_copy wArena 0
    ⟨[("on_root", ⟨"on_root", 0, false⟩)], none, ScopeKind.readOnlyBoundary⟩
    (by decide) (by decide)
  exact ⟨cl, h1, h2, h4 "on_root" ⟨"on_root", 0, false⟩ (by decide)⟩

theorem makeClosure_resets_used_preserves_origins_witness :
    (∀ nb ∈ wClosure.bindings, nb.2.used = false) ∧
    (∃ b0 : Binding String Nat,
      capturedLookup wArena 2 "on_one" = some b0 ∧
      ("on_two" : String) = b0.value ∧ (2 : Nat) = b0.origin) := by
  have h := makeClosure_resets_used_preserves_origins wArena 2 wClosure
    (by decide) (by decide)
  refine ⟨h.1, ?_⟩
  obtain ⟨b0, hb0, hv, ho, _⟩ := h.2 "on_one" ⟨"on_two", 2, false⟩ (by decide)
  exact ⟨b0, hb0, hv, ho⟩

theorem nonRecursiveMergeTo_into_empty_target_witness :
    ∃ nt : ScopeData String Nat,
      nonRecursiveMergeTo mSource mTargetEmpty true 99 "error" =
        Except.ok nt ∧
      nt.bindings = mSource.bindings ∧ nt.parent = some 7 := by
  obtain ⟨nt, h1, h2, h3, _, _⟩ := nonRecursiveMergeTo_into_empty_target
    mSource mTargetEmpty 99 "error" true (by decide) rfl
  exact ⟨nt, h1, h2, h3⟩

theorem lookup_without_markUsed_is_pure_witness :
    getValue gArena 2 "on_const" false = some ("hello", gArena) ∧
    gArena = gArena ∧
    ∀ j : Nat, checkForUnusedVars gArena j = checkForUnusedVars gArena j := by
  refine ⟨by decide, ?_⟩
  exact lookup_without_markUsed_is_pure gArena 2 "on_const" "hello" gArena
    (Or.inl (by decide))

end GnScope
